import Mathlib

/-
Verification of the label-noise injection core of data/utils.py.

The embedding models the numpy-based code over exact rationals:

  * matrices are NpMat (explicit shape plus an entry function, like an
    ndarray of dtype float with its shape);
  * the label array appears in the code at two runtime shapes, so the single
    Python function multiclass_noisify is embedded once per shape:
    multiclass_noisify for a 2-D (m, 1) column array (List (List Int)) and
    multiclass_noisify_flat for a 1-D array (List Int) -- numpy indexing
    differs between the two, which is exactly what one of the checked
    properties is about;
  * Python exceptions become an Err-valued Except: the bare assert
    statements and assert_array_almost_equal raise AssertionError,
    np.max of an empty array raises ValueError, out-of-bounds ndarray
    writes and reads raise IndexError, float division by integer zero
    raises ZeroDivisionError, and passing a scalar where multinomial
    expects a sequence of probabilities raises TypeError;
  * the seeded generator np.random.RandomState(random_state) is modelled as
    an explicit deterministic stream (a linear congruential generator); the
    repository only relies on the generator being seeded and local, not on
    the exact MT19937 stream, and the categorical draw of
    multinomial(1, pvals, 1) is realised as a cumulative-sum walk over a
    uniform draw in [0,1);
  * each run also produces a list of Event markers recording that the
    matrix-construction code ran, that the sampler was entered, and each
    random draw, so that claims of the form "the sampler is never invoked"
    are about an observable of the embedding.
-/

namespace CoTeaching

/-- Python exception kinds raised by the embedded code paths. -/
inductive Err where
  | assertionError
  | typeError
  | indexError
  | zeroDivisionError
  | valueError
  deriving DecidableEq, Repr

/-- Observable execution markers: the matrix-construction code ran, the
sampler (multiclass_noisify) was entered, one categorical draw happened. -/
inductive Event where
  | matrixBuild
  | samplerCall
  | draw
  deriving DecidableEq, Repr

deriving instance DecidableEq for Except

/-- A numpy 2-D float array: explicit shape and an entry function. -/
structure NpMat where
  rows : Nat
  cols : Nat
  entry : Nat → Nat → ℚ

/-- np.eye(n): identity matrix. -/
def eyeM (n : Nat) : NpMat :=
  ⟨n, n, fun i j => if i = j then 1 else 0⟩

/-- np.ones((n, n)). -/
def onesM (n : Nat) : NpMat :=
  ⟨n, n, fun _ _ => 1⟩

/-- Scalar times matrix. -/
def smulM (c : ℚ) (m : NpMat) : NpMat :=
  { m with entry := fun i j => c * m.entry i j }

/-- In-bounds ndarray element write; out of bounds raises IndexError. -/
def setE (m : NpMat) (i j : Nat) (v : ℚ) : Except Err NpMat :=
  if i < m.rows ∧ j < m.cols then
    .ok ⟨m.rows, m.cols, fun a b => if a = i ∧ b = j then v else m.entry a b⟩
  else .error .indexError

/-- Row i of the matrix as a list, matrix[i, :] for an in-range Nat index. -/
def rowList (m : NpMat) (i : Nat) : List ℚ :=
  (List.range m.cols).map (fun j => m.entry i j)

/-- Sum of row i, matrix.sum(axis=1) at position i. -/
def rowSum (m : NpMat) (i : Nat) : ℚ :=
  (rowList m i).sum

/-- Tolerance of numpy assert_array_almost_equal at decimal = 6:
abs(actual - desired) < 1.5 * 10 ^ (-6). -/
def almostTol : ℚ := 3 / 2000000

/-- assert_array_almost_equal(matrix.sum(axis=1), np.ones(...)): every row
sum is within almostTol of 1. -/
def rowsAlmostOnes (m : NpMat) : Bool :=
  (List.range m.rows).all (fun i => decide (|rowSum m i - 1| < almostTol))

/-- (matrix >= 0.0).all(). -/
def entriesNonneg (m : NpMat) : Bool :=
  (List.range m.rows).all (fun i =>
    (List.range m.cols).all (fun j => decide (0 ≤ m.entry i j)))

/-- np.max over a 2-D int array; empty input raises ValueError. -/
def npMax (y : List (List Int)) : Except Err Int :=
  match y.flatten with
  | [] => .error .valueError
  | x :: xs => .ok (xs.foldl max x)

/-- np.max over a 1-D int array; empty input raises ValueError. -/
def npMaxFlat (y : List Int) : Except Err Int :=
  match y with
  | [] => .error .valueError
  | x :: xs => .ok (xs.foldl max x)

/-- matrix[i, :] for a scalar (possibly negative) index, with the numpy
wrap-around convention; indices outside [-rows, rows) raise IndexError. -/
def npGetRow (m : NpMat) (i : Int) : Except Err (List ℚ) :=
  if 0 ≤ i ∧ i < (m.rows : Int) then .ok (rowList m i.toNat)
  else if -(m.rows : Int) ≤ i ∧ i < 0 then .ok (rowList m ((m.rows : Int) + i).toNat)
  else .error .indexError

/-- matrix[i, :][0] when i is itself an integer array (fancy indexing):
matrix[i, :] selects one row per index after bound-checking all of them,
and [0] takes the first of those rows; an empty index array makes [0]
raise IndexError. -/
def fancyRowsHead (m : NpMat) (idxs : List Int) : Except Err (List ℚ) :=
  if idxs.all (fun i => decide (-(m.rows : Int) ≤ i ∧ i < (m.rows : Int))) then
    match idxs with
    | [] => .error .indexError
    | i :: _ => npGetRow m i
  else .error .indexError

/-- One step of the modelled pseudo-random stream (glibc LCG constants). -/
def lcgNext (g : Nat) : Nat :=
  (1103515245 * g + 12345) % 2147483648

/-- One uniform draw in [0, 1) together with the successor state. -/
def randUnit (g : Nat) : ℚ × Nat :=
  let g2 := lcgNext g
  ((g2 : ℚ) / 2147483648, g2)

/-- np.random.RandomState(random_state): a fresh local generator whose
stream is fully determined by the seed. -/
def mkRandomState (seed : Nat) : Nat := seed

/-- Index of the category drawn from distribution pvals given a uniform
draw u: first index whose probability mass exceeds the remaining draw,
falling back to the last category. -/
def catIndex (u : ℚ) : List ℚ → Nat
  | [] => 0
  | [_] => 0
  | p :: q :: rest => if u < p then 0 else catIndex (u - p) (q :: rest) + 1

/-- The one-hot vector of length len with the 1 at position k. -/
def oneHot (len k : Nat) : List Nat :=
  (List.range len).map (fun j => if j = k then 1 else 0)

/-- flipper.multinomial(1, pvals, 1)[0]: one categorical draw returned as a
one-hot row, consuming one uniform from the generator state. -/
def multinomialOneHot (g : Nat) (pvals : List ℚ) : List Nat × Nat :=
  let (u, g2) := randUnit g
  (oneHot pvals.length (catIndex u pvals), g2)

/-- Helper of whereEq1: current absolute position threaded along. -/
def whereEq1Aux : Nat → List Nat → List Nat
  | _, [] => []
  | j, x :: rest =>
    if x == 1 then j :: whereEq1Aux (j + 1) rest else whereEq1Aux (j + 1) rest

/-- np.where(flipped == 1)[0]: the positions holding a 1. -/
def whereEq1 (v : List Nat) : List Nat :=
  whereEq1Aux 0 v

/-- new_y[idx] = vals for a row slot of the 2-D label array: numpy
broadcasts a length-1 value array over the slot, accepts an exact length
match, and raises ValueError otherwise. -/
def broadcastAssign (old : List Int) (vals : List Int) : Except Err (List Int) :=
  match vals with
  | [v] => .ok (old.map (fun _ => v))
  | _ => if vals.length = old.length then .ok vals else .error .valueError

/-- The sampling loop of multiclass_noisify over a 2-D (m, 1) label array:
for each position, i = y[idx] (a length-1 index array),
flipped = flipper.multinomial(1, matrix[i, :][0], 1)[0], and
new_y[idx] = np.where(flipped == 1)[0]. Returns the new rows plus one
draw event per completed iteration. -/
def sampleLoop (m : NpMat) (g : Nat) : List (List Int) → Except Err (List (List Int)) × List Event
  | [] => (.ok [], [])
  | r :: rest =>
    match fancyRowsHead m r with
    | .error e => (.error e, [])
    | .ok pvals =>
      let (flipped, g2) := multinomialOneHot g pvals
      match broadcastAssign r ((whereEq1 flipped).map Int.ofNat) with
      | .error e => (.error e, [.draw])
      | .ok newRow =>
        match sampleLoop m g2 rest with
        | (.ok out, ev) => (.ok (newRow :: out), .draw :: ev)
        | (.error e, ev) => (.error e, .draw :: ev)

/-- multiclass_noisify (lines 99-120) applied to a 2-D (m, 1) label array:
assert the matrix is square, assert np.max(y) < matrix.shape[0], assert
the rows are row-stochastic within tolerance, assert all entries are
non-negative, then flip each label with the local seeded generator. -/
def multiclass_noisify (y : List (List Int)) (matrix : NpMat) (random_state : Nat) :
    Except Err (List (List Int)) × List Event :=
  if matrix.rows = matrix.cols then
    match npMax y with
    | .error e => (.error e, [.samplerCall])
    | .ok mx =>
      if mx < (matrix.rows : Int) then
        if rowsAlmostOnes matrix then
          if entriesNonneg matrix then
            match sampleLoop matrix (mkRandomState random_state) y with
            | (res, ev) => (res, .samplerCall :: ev)
          else (.error .assertionError, [.samplerCall])
        else (.error .assertionError, [.samplerCall])
      else (.error .assertionError, [.samplerCall])
  else (.error .assertionError, [.samplerCall])

/-- The sampling loop of multiclass_noisify over a 1-D label array: here
i = y[idx] is a scalar, matrix[i, :] is row i, and the trailing [0] picks
the FIRST ENTRY of that row -- a scalar float.  flipper.multinomial then
receives a scalar where it needs a sequence of probabilities and raises
TypeError (len() of a numpy float) before any draw is made. -/
def sampleLoopFlat (m : NpMat) (_g : Nat) : List Int → Except Err (List Int) × List Event
  | [] => (.ok [], [])
  | l :: _ =>
    match npGetRow m l with
    | .error e => (.error e, [])
    | .ok row =>
      match row with
      | [] => (.error .indexError, [])
      | _ :: _ => (.error .typeError, [])

/-- multiclass_noisify (lines 99-120) applied to a flat 1-D label array:
the validation is identical, the per-position draw is not. -/
def multiclass_noisify_flat (y : List Int) (matrix : NpMat) (random_state : Nat) :
    Except Err (List Int) × List Event :=
  if matrix.rows = matrix.cols then
    match npMaxFlat y with
    | .error e => (.error e, [.samplerCall])
    | .ok mx =>
      if mx < (matrix.rows : Int) then
        if rowsAlmostOnes matrix then
          if entriesNonneg matrix then
            match sampleLoopFlat matrix (mkRandomState random_state) y with
            | (res, ev) => (res, .samplerCall :: ev)
          else (.error .assertionError, [.samplerCall])
        else (.error .assertionError, [.samplerCall])
      else (.error .assertionError, [.samplerCall])
  else (.error .assertionError, [.samplerCall])

/-- Rows 1 .. nb_classes-2 of the pairflip overwrites (the Python loop
for i in range(1, nb_classes - 1)): matrix[i, i] = 1-n; matrix[i, i+1] = n. -/
def pairflipLoop (noise : ℚ) : List Nat → NpMat → Except Err NpMat
  | [], m => .ok m
  | i :: rest, m =>
    match setE m i i (1 - noise) with
    | .error e => .error e
    | .ok m1 =>
      match setE m1 i (i + 1) noise with
      | .error e => .error e
      | .ok m2 => pairflipLoop noise rest m2

/-- The transition matrix noisify_pairflip builds (lines 128-136):
matrix = np.eye(nb_classes); if n > 0 the first row, middle rows and
wrap-around last row are overwritten in source order. -/
def pairflip_matrix (noise : ℚ) (nb_classes : Nat) : Except Err NpMat :=
  let matrix := eyeM nb_classes
  if noise > 0 then
    match setE matrix 0 0 (1 - noise) with
    | .error e => .error e
    | .ok m1 =>
      match setE m1 0 1 noise with
      | .error e => .error e
      | .ok m2 =>
        match pairflipLoop noise (List.range' 1 (nb_classes - 1 - 1)) m2 with
        | .error e => .error e
        | .ok m3 =>
          match setE m3 (nb_classes - 1) (nb_classes - 1) (1 - noise) with
          | .error e => .error e
          | .ok m4 => setE m4 (nb_classes - 1) 0 noise
  else .ok matrix

/-- Diagonal overwrites of the symmetric builder loop. -/
def symLoop (noise : ℚ) : List Nat → NpMat → Except Err NpMat
  | [], m => .ok m
  | i :: rest, m =>
    match setE m i i (1 - noise) with
    | .error e => .error e
    | .ok m1 => symLoop noise rest m1

/-- The transition matrix noisify_multiclass_symmetric builds (lines
153-162): matrix = (n / (nb_classes - 1)) * np.ones((C, C)); with
nb_classes = 1 the Python float division by integer 0 raises
ZeroDivisionError; if n > 0 every diagonal entry is overwritten to 1-n. -/
def symmetric_matrix (noise : ℚ) (nb_classes : Nat) : Except Err NpMat :=
  if nb_classes = 1 then .error .zeroDivisionError
  else
    let matrix := smulM (noise / ((nb_classes : ℚ) - 1)) (onesM nb_classes)
    if noise > 0 then
      match setE matrix 0 0 (1 - noise) with
      | .error e => .error e
      | .ok m1 =>
        match symLoop noise (List.range' 1 (nb_classes - 1 - 1)) m1 with
        | .error e => .error e
        | .ok m2 => setE m2 (nb_classes - 1) (nb_classes - 1) (1 - noise)
    else .ok matrix

/-- np.not_equal(y_noisy, y_train).mean(): fraction of differing entries. -/
def noiseRate (a b : List (List Int)) : ℚ :=
  let pairs := a.flatten.zip b.flatten
  ((pairs.filter (fun p => decide (p.1 ≠ p.2))).length : ℚ) / (pairs.length : ℚ)

/-- noisify_pairflip (lines 124-146): build the pairflip matrix; when
noise > 0 sample with multiclass_noisify, compute the realized rate and
assert actual_noise > 0; otherwise return the labels and None. -/
def noisify_pairflip (y_train : List (List Int)) (noise : ℚ) (random_state : Nat)
    (nb_classes : Nat) : Except Err (List (List Int) × Option ℚ) × List Event :=
  match pairflip_matrix noise nb_classes with
  | .error e => (.error e, [.matrixBuild])
  | .ok matrix =>
    if noise > 0 then
      match multiclass_noisify y_train matrix random_state with
      | (.error e, ev) => (.error e, .matrixBuild :: ev)
      | (.ok y_noisy, ev) =>
        let actual_noise := noiseRate y_noisy y_train
        if actual_noise > 0 then (.ok (y_noisy, some actual_noise), .matrixBuild :: ev)
        else (.error .assertionError, .matrixBuild :: ev)
    else (.ok (y_train, none), [.matrixBuild])

/-- noisify_multiclass_symmetric (lines 149-172): same shape as the
pairflip builder with the symmetric matrix. -/
def noisify_multiclass_symmetric (y_train : List (List Int)) (noise : ℚ) (random_state : Nat)
    (nb_classes : Nat) : Except Err (List (List Int) × Option ℚ) × List Event :=
  match symmetric_matrix noise nb_classes with
  | .error e => (.error e, [.matrixBuild])
  | .ok matrix =>
    if noise > 0 then
      match multiclass_noisify y_train matrix random_state with
      | (.error e, ev) => (.error e, .matrixBuild :: ev)
      | (.ok y_noisy, ev) =>
        let actual_noise := noiseRate y_noisy y_train
        if actual_noise > 0 then (.ok (y_noisy, some actual_noise), .matrixBuild :: ev)
        else (.error .assertionError, .matrixBuild :: ev)
    else (.ok (y_train, none), [.matrixBuild])

/-- noisify (lines 175-184): dispatch on the topology tag; an unknown tag
raises ValueError with message Unsupported noise type. -/
def noisify (nb_classes : Nat) (train_labels : List (List Int)) (noise_type : String)
    (noise_rate : ℚ) (random_state : Nat) :
    Except Err (List (List Int) × Option ℚ) × List Event :=
  if noise_type = "pairflip" then
    noisify_pairflip train_labels noise_rate random_state nb_classes
  else if noise_type = "symmetric" then
    noisify_multiclass_symmetric train_labels noise_rate random_state nb_classes
  else (.error .valueError, [])

/-- The topology tag strings used by the callers. -/
def pairflipTag : String := "pairflip"

/-- Second recognised topology tag. -/
def symmetricTag : String := "symmetric"

/-- An unrecognised topology tag used as a concrete test value. -/
def gaussianTag : String := "gaussian"

/-- State of the process-wide numpy generator np.random plus the call: the
source constructs a local RandomState(random_state) at line 113 and never
reads or advances the ambient generator, so a call is the pure value
paired with the untouched ambient state. -/
def multiclass_noisify_amb (world : Nat) (y : List (List Int)) (matrix : NpMat)
    (random_state : Nat) : (Except Err (List (List Int)) × List Event) × Nat :=
  (multiclass_noisify y matrix random_state, world)

/-- Whether an Except-valued matrix build succeeded. -/
def builtOk (r : Except Err NpMat) : Bool :=
  match r with
  | .ok _ => true
  | .error _ => false

/-- Row count of a built matrix (0 on error). -/
def builtRows (r : Except Err NpMat) : Nat :=
  match r with
  | .ok m => m.rows
  | .error _ => 0

/-- Column count of a built matrix (0 on error). -/
def builtCols (r : Except Err NpMat) : Nat :=
  match r with
  | .ok m => m.cols
  | .error _ => 0

/-- Entry of a built matrix (0 on error). -/
def builtEntry (r : Except Err NpMat) (i j : Nat) : ℚ :=
  match r with
  | .ok m => m.entry i j
  | .error _ => 0

/-- The built matrix rendered as a list of rows. -/
def toLists (m : NpMat) : List (List ℚ) :=
  (List.range m.rows).map (fun i => (List.range m.cols).map (fun j => m.entry i j))

/-- A built matrix rendered as lists, keeping the error if any. -/
def builtLists (r : Except Err NpMat) : Except Err (List (List ℚ)) :=
  match r with
  | .ok m => .ok (toLists m)
  | .error e => .error e

/-- The property the spec asserts of every built matrix: each row sums to
1 within tolerance tol and no entry is negative. -/
def rowStochasticWithin (m : NpMat) (tol : ℚ) : Bool :=
  ((List.range m.rows).all (fun i => decide (|rowSum m i - 1| ≤ tol))) &&
    entriesNonneg m

/-- rowStochasticWithin through the Except of the builder (false on error). -/
def builtRowStochastic (r : Except Err NpMat) (tol : ℚ) : Bool :=
  match r with
  | .ok m => rowStochasticWithin m tol
  | .error _ => false

/-- The four validated preconditions of the sampler, exactly as the source
checks them (2-D labels): square shape, np.max(y) < rows, row sums within
the assert_array_almost_equal tolerance of 1, no negative entry. -/
def validationOk (matrix : NpMat) (y : List (List Int)) : Bool :=
  (matrix.rows == matrix.cols) &&
    (match npMax y with
     | .ok mx => decide (mx < (matrix.rows : Int))
     | .error _ => false) &&
    rowsAlmostOnes matrix && entriesNonneg matrix

/-- The same four preconditions for a flat 1-D label vector. -/
def validationOkFlat (matrix : NpMat) (y : List Int) : Bool :=
  (matrix.rows == matrix.cols) &&
    (match npMaxFlat y with
     | .ok mx => decide (mx < (matrix.rows : Int))
     | .error _ => false) &&
    rowsAlmostOnes matrix && entriesNonneg matrix

/-- Sum of a mapped range as a Finset sum. -/
lemma sum_map_range_eq (f : Nat → ℚ) (n : Nat) :
    ((List.range n).map f).sum = ∑ j in Finset.range n, f j := by
  induction n with
  | zero => simp
  | succ k ih =>
    rw [List.range_succ, List.map_append, List.sum_append, Finset.sum_range_succ, ih]
    simp

/-- A range sum of a two-point function. -/
lemma sum_ite_two (m a b : Nat) (x y : ℚ) (ha : a < m) (hb : b < m) (hab : a ≠ b) :
    (∑ j in Finset.range m, (if j = a then x else if j = b then y else 0)) = x + y := by
  have hcong : ∀ j ∈ Finset.range m,
      (if j = a then x else if j = b then y else 0) =
        (if j = a then x else 0) + (if j = b then y else 0) := by
    intro j _
    by_cases h1 : j = a
    · have h2 : ¬ (j = b) := by rw [h1]; exact hab
      rw [if_pos h1, if_pos h1, if_neg h2, add_zero]
    · rw [if_neg h1, if_neg h1, zero_add]
  rw [Finset.sum_congr rfl hcong, Finset.sum_add_distrib,
    Finset.sum_ite_eq' (Finset.range m) a (fun _ => x),
    Finset.sum_ite_eq' (Finset.range m) b (fun _ => y),
    if_pos (Finset.mem_range.mpr ha), if_pos (Finset.mem_range.mpr hb)]

/-- A range sum of a function that is x at one point and c elsewhere. -/
lemma sum_ite_const (m a : Nat) (x c : ℚ) (ha : a < m) :
    (∑ j in Finset.range m, (if j = a then x else c)) = x + ((m : ℚ) - 1) * c := by
  have hcong : ∀ j ∈ Finset.range m,
      (if j = a then x else c) = c + (if j = a then x - c else 0) := by
    intro j _
    by_cases h1 : j = a
    · rw [if_pos h1, if_pos h1]; ring
    · rw [if_neg h1, if_neg h1, add_zero]
  rw [Finset.sum_congr rfl hcong, Finset.sum_add_distrib, Finset.sum_const,
    Finset.sum_ite_eq' (Finset.range m) a (fun _ => x - c),
    if_pos (Finset.mem_range.mpr ha), Finset.card_range, nsmul_eq_mul]
  ring

/-- setE succeeds in bounds, with a pointwise-described result. -/
lemma setE_ok (m : NpMat) (i j : Nat) (v : ℚ) (hi : i < m.rows) (hj : j < m.cols) :
    setE m i j v =
      .ok ⟨m.rows, m.cols, fun a b => if a = i ∧ b = j then v else m.entry a b⟩ := by
  simp [setE, hi, hj]

/-- setE out of bounds raises IndexError. -/
lemma setE_err (m : NpMat) (i j : Nat) (v : ℚ) (h : ¬(i < m.rows ∧ j < m.cols)) :
    setE m i j v = .error .indexError := by
  simp only [setE, if_neg h]

/-- Pointwise description of the pairflip middle-row loop. -/
lemma pairflipLoop_spec (n : ℚ) :
    ∀ (l : List Nat) (m : NpMat), l.Nodup → (∀ i ∈ l, i < m.rows ∧ i + 1 < m.cols) →
    ∃ m2, pairflipLoop n l m = .ok m2 ∧ m2.rows = m.rows ∧ m2.cols = m.cols ∧
      ∀ a b, m2.entry a b =
        if a ∈ l ∧ b = a then 1 - n
        else if a ∈ l ∧ b = a + 1 then n
        else m.entry a b := by
  intro l
  induction l with
  | nil =>
    intro m _ _
    exact ⟨m, rfl, rfl, rfl, by intro a b; simp⟩
  | cons i rest ih =>
    intro m hnd hb
    obtain ⟨hnotin, hndrest⟩ := List.nodup_cons.mp hnd
    obtain ⟨hir, hic⟩ := hb i (List.mem_cons_self _ _)
    have hic0 : i < m.cols := Nat.lt_of_succ_lt hic
    have h1 := setE_ok m i i (1 - n) hir hic0
    set m1 : NpMat :=
      ⟨m.rows, m.cols, fun a b => if a = i ∧ b = i then 1 - n else m.entry a b⟩ with hm1
    have h2 := setE_ok m1 i (i + 1) n (by rw [hm1]; exact hir) (by rw [hm1]; exact hic)
    set m2 : NpMat :=
      ⟨m1.rows, m1.cols, fun a b => if a = i ∧ b = i + 1 then n else m1.entry a b⟩ with hm2
    have hbrest : ∀ x ∈ rest, x < m2.rows ∧ x + 1 < m2.cols := by
      intro x hx
      have := hb x (List.mem_cons_of_mem _ hx)
      rw [hm2, hm1]
      exact this
    obtain ⟨mf, hmf, hrows, hcols, hent⟩ := ih m2 hndrest hbrest
    refine ⟨mf, ?_, by rw [hrows, hm2, hm1], by rw [hcols, hm2, hm1], ?_⟩
    · show pairflipLoop n (i :: rest) m = .ok mf
      simp only [pairflipLoop, h1, h2, hmf]
    · intro a b
      rw [hent a b]
      by_cases h1a : a = i
      · subst h1a
        simp only [hm2, hm1, List.mem_cons, true_or, true_and]
        have hmem : (a ∈ rest) = False := by simp [hnotin]
        by_cases h2b : b = a
        · have h3b : ¬ (b = a + 1) := by omega
          simp [h2b, h3b, hmem]
        · by_cases h3b : b = a + 1
          · simp [h2b, h3b, hmem]
          · simp [h2b, h3b, hmem]
      · simp [hm2, hm1, List.mem_cons, h1a]

/-- Pointwise description of the symmetric diagonal loop. -/
lemma symLoop_spec (n : ℚ) :
    ∀ (l : List Nat) (m : NpMat), (∀ i ∈ l, i < m.rows ∧ i < m.cols) →
    ∃ m2, symLoop n l m = .ok m2 ∧ m2.rows = m.rows ∧ m2.cols = m.cols ∧
      ∀ a b, m2.entry a b =
        if a ∈ l ∧ b = a then 1 - n else m.entry a b := by
  intro l
  induction l with
  | nil =>
    intro m _
    exact ⟨m, rfl, rfl, rfl, by intro a b; simp⟩
  | cons i rest ih =>
    intro m hb
    obtain ⟨hir, hic⟩ := hb i (List.mem_cons_self _ _)
    have h1 := setE_ok m i i (1 - n) hir hic
    set m1 : NpMat :=
      ⟨m.rows, m.cols, fun a b => if a = i ∧ b = i then 1 - n else m.entry a b⟩ with hm1
    have hbrest : ∀ x ∈ rest, x < m1.rows ∧ x < m1.cols := by
      intro x hx
      have := hb x (List.mem_cons_of_mem _ hx)
      rw [hm1]
      exact this
    obtain ⟨mf, hmf, hrows, hcols, hent⟩ := ih m1 hbrest
    refine ⟨mf, ?_, by rw [hrows, hm1], by rw [hcols, hm1], ?_⟩
    · show symLoop n (i :: rest) m = .ok mf
      simp only [symLoop, h1, hmf]
    · intro a b
      rw [hent a b]
      by_cases h1a : a = i
      · subst h1a
        simp only [hm1, List.mem_cons, true_or, true_and]
        by_cases h2b : b = a
        · by_cases hmem : a ∈ rest <;> simp [h2b, hmem]
        · simp [h2b]
      · simp [hm1, List.mem_cons, h1a]

/-- Closed form of the pairflip matrix for a positive noise level:
1-n on the diagonal, n at the cyclic successor column, 0 elsewhere. -/
lemma pairflip_matrix_spec (n : ℚ) (C : Nat) (hC : 2 ≤ C) (hn : 0 < n) :
    ∃ M, pairflip_matrix n C = .ok M ∧ M.rows = C ∧ M.cols = C ∧
      ∀ i j, i < C → j < C →
        M.entry i j = (if j = i then 1 - n else if j = (i + 1) % C then n else 0) := by
  have h00 := setE_ok (eyeM C) 0 0 (1 - n) (by show 0 < C; omega) (by show 0 < C; omega)
  set m1 : NpMat :=
    ⟨(eyeM C).rows, (eyeM C).cols,
      fun a b => if a = 0 ∧ b = 0 then 1 - n else (eyeM C).entry a b⟩ with hm1
  have hrows1 : m1.rows = C := rfl
  have hcols1 : m1.cols = C := rfl
  have h01 := setE_ok m1 0 1 n (by rw [hrows1]; omega) (by rw [hcols1]; omega)
  set m2 : NpMat :=
    ⟨m1.rows, m1.cols, fun a b => if a = 0 ∧ b = 1 then n else m1.entry a b⟩ with hm2
  have hrows2 : m2.rows = C := rfl
  have hcols2 : m2.cols = C := rfl
  have hbnd : ∀ i ∈ List.range' 1 (C - 1 - 1), i < m2.rows ∧ i + 1 < m2.cols := by
    intro i hi
    rw [List.mem_range'_1] at hi
    rw [hrows2, hcols2]
    omega
  obtain ⟨m3, hm3, hrows3, hcols3, hent3⟩ :=
    pairflipLoop_spec n (List.range' 1 (C - 1 - 1)) m2 (List.nodup_range' _ _) hbnd
  have hCC := setE_ok m3 (C - 1) (C - 1) (1 - n)
    (by rw [hrows3, hrows2]; omega) (by rw [hcols3, hcols2]; omega)
  set m4 : NpMat :=
    ⟨m3.rows, m3.cols, fun a b => if a = C - 1 ∧ b = C - 1 then 1 - n else m3.entry a b⟩
    with hm4
  have hC0 := setE_ok m4 (C - 1) 0 n
    (by show C - 1 < m3.rows; rw [hrows3, hrows2]; omega)
    (by show 0 < m3.cols; rw [hcols3, hcols2]; omega)
  set m5 : NpMat :=
    ⟨m4.rows, m4.cols, fun a b => if a = C - 1 ∧ b = 0 then n else m4.entry a b⟩ with hm5
  refine ⟨m5, ?_, ?_, ?_, ?_⟩
  · show pairflip_matrix n C = .ok m5
    rw [pairflip_matrix]
    simp only [hn, if_pos, h00, h01, hm3, hCC, hC0]
  · show m4.rows = C
    show m3.rows = C
    rw [hrows3, hrows2]
  · show m4.cols = C
    show m3.cols = C
    rw [hcols3, hcols2]
  · intro i j hi hj
    have hmem : ∀ a : Nat, (a ∈ List.range' 1 (C - 1 - 1)) ↔ (1 ≤ a ∧ a < C - 1) := by
      intro a
      rw [List.mem_range'_1]
      omega
    show (if i = C - 1 ∧ j = 0 then n else m4.entry i j) = _
    by_cases hiC : i = C - 1
    · subst hiC
      have hmod : (C - 1 + 1) % C = 0 := by
        rw [Nat.sub_add_cancel (by omega : 1 ≤ C), Nat.mod_self]
      have hnotmem : ¬ (C - 1 ∈ List.range' 1 (C - 1 - 1)) := by
        rw [hmem]
        omega
      by_cases hj0 : j = 0
      · rw [if_pos ⟨rfl, hj0⟩, if_neg (by omega : ¬ j = C - 1),
          if_pos (by rw [hmod]; exact hj0)]
      · rw [if_neg (fun h => hj0 h.2)]
        show (if C - 1 = C - 1 ∧ j = C - 1 then 1 - n else m3.entry (C - 1) j) = _
        by_cases hjC : j = C - 1
        · rw [if_pos ⟨rfl, hjC⟩, if_pos hjC]
        · rw [if_neg (fun h => hjC h.2), hent3,
            if_neg (fun h => hnotmem h.1), if_neg (fun h => hnotmem h.1)]
          show (if C - 1 = 0 ∧ j = 1 then n else m1.entry (C - 1) j) = _
          rw [if_neg (by omega : ¬ (C - 1 = 0 ∧ j = 1))]
          show (if C - 1 = 0 ∧ j = 0 then 1 - n else (eyeM C).entry (C - 1) j) = _
          rw [if_neg (by omega : ¬ (C - 1 = 0 ∧ j = 0))]
          show (if C - 1 = j then (1 : ℚ) else 0) = _
          rw [if_neg (by omega : ¬ (C - 1 = j)), if_neg hjC,
            if_neg (by rw [hmod]; exact hj0)]
    · by_cases hi0 : i = 0
      · subst hi0
        have hmod : (0 + 1) % C = 1 := Nat.mod_eq_of_lt (by omega)
        have hnotmem : ¬ ((0 : Nat) ∈ List.range' 1 (C - 1 - 1)) := by
          rw [hmem]
          omega
        have hneCm : ¬ ((0 : Nat) = C - 1 ∧ j = 0) := by omega
        have hneCm2 : ¬ ((0 : Nat) = C - 1 ∧ j = C - 1) := by omega
        simp only [hneCm, if_false, hm4]
        simp only [hneCm2, if_false]
        rw [hent3]
        simp only [hnotmem, false_and, if_false, hm2, hm1]
        by_cases hj0 : j = 0
        · subst hj0
          simp [hmod]
        · by_cases hj1 : j = 1
          · subst hj1
            simp [hmod, hj0]
          · have : ¬ ((0 : Nat) = j) := fun h => hj0 h.symm
            simp [hmod, hj0, hj1, eyeM, this]
      · have hmemi : i ∈ List.range' 1 (C - 1 - 1) := by
          rw [hmem]
          omega
        have hmod : (i + 1) % C = i + 1 := Nat.mod_eq_of_lt (by omega)
        have e1 : ¬ (i = C - 1 ∧ j = 0) := by omega
        have e2 : ¬ (i = C - 1 ∧ j = C - 1) := by omega
        simp only [e1, if_false, hm4, e2]
        rw [hent3]
        by_cases hji : j = i
        · subst hji
          simp [hmemi, hmod, (by omega : ¬ (j = j + 1))]
        · by_cases hjs : j = i + 1
          · subst hjs
            simp [hmemi, hmod, hji]
          · have e3 : ¬ (i = 0 ∧ j = 1) := by omega
            have e4 : ¬ (i = 0 ∧ j = 0) := by omega
            have e5 : ¬ (i = j) := fun h => hji h.symm
            simp [hmemi, hmod, hji, hjs, hm2, hm1, e3, e4, e5, eyeM]

/-- Closed form of the symmetric matrix for a positive noise level. -/
lemma symmetric_matrix_spec (n : ℚ) (C : Nat) (hC : 2 ≤ C) (hn : 0 < n) :
    ∃ M, symmetric_matrix n C = .ok M ∧ M.rows = C ∧ M.cols = C ∧
      ∀ i j, i < C → j < C →
        M.entry i j = (if j = i then 1 - n else n / ((C : ℚ) - 1)) := by
  have hC1 : ¬ (C = 1) := by omega
  set m0 : NpMat := smulM (n / ((C : ℚ) - 1)) (onesM C) with hm0
  have hrows0 : m0.rows = C := rfl
  have hcols0 : m0.cols = C := rfl
  have h00 := setE_ok m0 0 0 (1 - n) (by rw [hrows0]; omega) (by rw [hcols0]; omega)
  set m1 : NpMat :=
    ⟨m0.rows, m0.cols, fun a b => if a = 0 ∧ b = 0 then 1 - n else m0.entry a b⟩ with hm1
  have hbnd : ∀ i ∈ List.range' 1 (C - 1 - 1), i < m1.rows ∧ i < m1.cols := by
    intro i hi
    rw [List.mem_range'_1] at hi
    show i < m0.rows ∧ i < m0.cols
    rw [hrows0, hcols0]
    omega
  obtain ⟨m2, hm2eq, hrows2, hcols2, hent2⟩ := symLoop_spec n (List.range' 1 (C - 1 - 1)) m1 hbnd
  have hCC := setE_ok m2 (C - 1) (C - 1) (1 - n)
    (by rw [hrows2]; show C - 1 < m0.rows; rw [hrows0]; omega)
    (by rw [hcols2]; show C - 1 < m0.cols; rw [hcols0]; omega)
  set m3 : NpMat :=
    ⟨m2.rows, m2.cols, fun a b => if a = C - 1 ∧ b = C - 1 then 1 - n else m2.entry a b⟩
    with hm3
  refine ⟨m3, ?_, ?_, ?_, ?_⟩
  · show symmetric_matrix n C = .ok m3
    rw [symmetric_matrix]
    simp only [hC1, if_false, ite_false, hn, if_pos, ← hm0, h00, hm2eq, hCC]
  · show m2.rows = C
    rw [hrows2]
    exact hrows0
  · show m2.cols = C
    rw [hcols2]
    exact hcols0
  · intro i j hi hj
    have hmem : ∀ a : Nat, (a ∈ List.range' 1 (C - 1 - 1)) ↔ (1 ≤ a ∧ a < C - 1) := by
      intro a
      rw [List.mem_range'_1]
      omega
    have hoff : m0.entry i j = n / ((C : ℚ) - 1) := by
      show n / ((C : ℚ) - 1) * 1 = n / ((C : ℚ) - 1)
      ring
    show (if i = C - 1 ∧ j = C - 1 then 1 - n else m2.entry i j) = _
    rw [hent2]
    by_cases hji : j = i
    · subst hji
      by_cases hjC : j = C - 1
      · subst hjC
        simp
      · by_cases hj0 : j = 0
        · subst hj0
          have e1 : ¬ ((0 : Nat) = C - 1 ∧ (0 : Nat) = C - 1) := by omega
          simp only [e1, if_false]
          have e2 : ¬ ((0 : Nat) ∈ List.range' 1 (C - 1 - 1)) := by rw [hmem]; omega
          simp [e2, hm1]
        · have e1 : ¬ (j = C - 1 ∧ j = C - 1) := by omega
          have e2 : j ∈ List.range' 1 (C - 1 - 1) := by rw [hmem]; omega
          simp [e1, e2]
    · have e1 : ¬ (i = C - 1 ∧ j = C - 1) := by omega
      have e2 : ¬ (i ∈ List.range' 1 (C - 1 - 1) ∧ j = i) := fun h => hji h.2
      have e3 : ¬ (i = 0 ∧ j = 0) := by omega
      rw [if_neg e1, if_neg e2]
      show (if i = 0 ∧ j = 0 then 1 - n else m0.entry i j) = _
      rw [if_neg e3, if_neg hji]
      exact hoff

/-- Pairflip with a non-positive noise level returns the identity matrix. -/
lemma pairflip_matrix_zero (n : ℚ) (C : Nat) (hn : ¬ n > 0) :
    pairflip_matrix n C = .ok (eyeM C) := by
  simp [pairflip_matrix, hn]

/-- Symmetric with a non-positive noise level returns the scaled all-ones
matrix (whenever the division does not raise). -/
lemma symmetric_matrix_zero (n : ℚ) (C : Nat) (hC : ¬ C = 1) (hn : ¬ n > 0) :
    symmetric_matrix n C = .ok (smulM (n / ((C : ℚ) - 1)) (onesM C)) := by
  simp [symmetric_matrix, hC, hn]

/-- Every row of the pairflip closed form sums to exactly 1. -/
lemma pairflip_rowSum (n : ℚ) (C : Nat) (hC : 2 ≤ C) (M : NpMat)
    (hc : M.cols = C)
    (he : ∀ i j, i < C → j < C →
      M.entry i j = (if j = i then 1 - n else if j = (i + 1) % C then n else 0))
    (i : Nat) (hi : i < C) : rowSum M i = 1 := by
  unfold rowSum rowList
  rw [hc, sum_map_range_eq]
  have hcong : ∀ j ∈ Finset.range C,
      M.entry i j = (if j = i then 1 - n else if j = (i + 1) % C then n else 0) :=
    fun j hj => he i j hi (Finset.mem_range.mp hj)
  rw [Finset.sum_congr rfl hcong]
  have hmlt : (i + 1) % C < C := Nat.mod_lt _ (by omega)
  have hne : i ≠ (i + 1) % C := by
    rcases Nat.lt_or_ge (i + 1) C with hlt | hge
    · rw [Nat.mod_eq_of_lt hlt]
      omega
    · have hiC : i + 1 = C := by omega
      rw [hiC, Nat.mod_self]
      omega
  rw [sum_ite_two C i ((i + 1) % C) (1 - n) n hi hmlt hne]
  ring

/-- Every row of the identity matrix sums to exactly 1. -/
lemma eye_rowSum (C : Nat) (i : Nat) (hi : i < C) : rowSum (eyeM C) i = 1 := by
  unfold rowSum rowList
  show ((List.range C).map (fun j => if i = j then (1 : ℚ) else 0)).sum = 1
  rw [sum_map_range_eq, Finset.sum_ite_eq (Finset.range C) i (fun _ => (1 : ℚ)),
    if_pos (Finset.mem_range.mpr hi)]

/-- Every row of the symmetric closed form sums to exactly 1. -/
lemma symmetric_rowSum (n : ℚ) (C : Nat) (hC : 2 ≤ C) (M : NpMat)
    (hc : M.cols = C)
    (he : ∀ i j, i < C → j < C →
      M.entry i j = (if j = i then 1 - n else n / ((C : ℚ) - 1)))
    (i : Nat) (hi : i < C) : rowSum M i = 1 := by
  unfold rowSum rowList
  rw [hc, sum_map_range_eq]
  have hcong : ∀ j ∈ Finset.range C,
      M.entry i j = (if j = i then 1 - n else n / ((C : ℚ) - 1)) :=
    fun j hj => he i j hi (Finset.mem_range.mp hj)
  rw [Finset.sum_congr rfl hcong, sum_ite_const C i (1 - n) (n / ((C : ℚ) - 1)) hi]
  have hCne : ((C : ℚ) - 1) ≠ 0 := by
    have h2 : (2 : ℚ) ≤ (C : ℚ) := by exact_mod_cast hC
    linarith
  field_simp

/-- catIndex stays within the distribution. -/
lemma catIndex_lt (l : List ℚ) : ∀ (u : ℚ), l ≠ [] → catIndex u l < l.length := by
  induction l with
  | nil => intro u h; exact absurd rfl h
  | cons p rest ih =>
    intro u _
    cases rest with
    | nil => simp [catIndex]
    | cons q rest2 =>
      simp only [catIndex]
      split
      · simp
      · have := ih (u - p) (by simp)
        simp only [List.length_cons] at this ⊢
        omega

/-- The positions of a one-hot segment built over range' with offset. -/
lemma whereEq1Aux_range' (k : Nat) :
    ∀ (m s : Nat),
      whereEq1Aux s ((List.range' s m).map (fun j => if j = k then 1 else 0)) =
        if s ≤ k ∧ k < s + m then [k] else [] := by
  intro m
  induction m with
  | zero =>
    intro s
    simp [whereEq1Aux, (by omega : ¬ (s ≤ k ∧ k < s + 0))]
  | succ mm ih =>
    intro s
    rw [List.range'_succ, List.map_cons]
    show whereEq1Aux s ((if s = k then 1 else 0) :: _) = _
    by_cases hs : s = k
    · subst hs
      simp only [if_pos rfl, whereEq1Aux]
      rw [ih (s + 1)]
      simp [(by omega : ¬ (s + 1 ≤ s ∧ s < s + 1 + mm)), (by omega : s ≤ s ∧ s < s + (mm + 1))]
    · simp only [if_neg hs, whereEq1Aux]
      rw [ih (s + 1)]
      have hiff : (s + 1 ≤ k ∧ k < s + 1 + mm) ↔ (s ≤ k ∧ k < s + (mm + 1)) := by omega
      simp only [hiff]
      simp

/-- np.where over a one-hot vector returns the singleton hot position. -/
lemma whereEq1_oneHot (len k : Nat) (hk : k < len) : whereEq1 (oneHot len k) = [k] := by
  unfold whereEq1 oneHot
  rw [List.range_eq_range', whereEq1Aux_range' k len 0]
  simp [hk]

/-- Elements never exceed a foldl max. -/
lemma le_foldl_max : ∀ (xs : List Int) (a x : Int), (x = a ∨ x ∈ xs) → x ≤ xs.foldl max a := by
  intro xs
  induction xs with
  | nil =>
    intro a x h
    rcases h with h | h
    · exact le_of_eq h
    · exact absurd h (List.not_mem_nil x)
  | cons b rest ih =>
    intro a x h
    show x ≤ rest.foldl max (max a b)
    rcases h with h | h
    · exact le_trans (le_of_eq h) (le_trans (le_max_left a b) (ih (max a b) _ (Or.inl rfl)))
    · rcases List.mem_cons.mp h with h | h
      · exact le_trans (le_of_eq h) (le_trans (le_max_right a b) (ih (max a b) _ (Or.inl rfl)))
      · exact ih (max a b) x (Or.inr h)

/-- A foldl max of elements below a bound stays below the bound. -/
lemma foldl_max_lt : ∀ (xs : List Int) (a B : Int), a < B → (∀ x ∈ xs, x < B) →
    xs.foldl max a < B := by
  intro xs
  induction xs with
  | nil =>
    intro a B ha _
    exact ha
  | cons b rest ih =>
    intro a B ha hx
    show rest.foldl max (max a b) < B
    exact ih (max a b) B (max_lt ha (hx b (List.mem_cons_self _ _)))
      (fun x hxm => hx x (List.mem_cons_of_mem _ hxm))

/-- npMax bounds every entry of the 2-D label array from above. -/
lemma npMax_ok_le (y : List (List Int)) (mx : Int) (h : npMax y = .ok mx) :
    ∀ r ∈ y, ∀ l ∈ r, l ≤ mx := by
  intro r hr l hl
  have hmem : l ∈ y.flatten := List.mem_flatten.mpr ⟨r, hr, hl⟩
  unfold npMax at h
  cases hf : y.flatten with
  | nil =>
    rw [hf] at hmem
    exact absurd hmem (List.not_mem_nil l)
  | cons x xs =>
    rw [hf] at h hmem
    simp only [Except.ok.injEq] at h
    rcases List.mem_cons.mp hmem with h1 | h1
    · exact le_of_le_of_eq (le_foldl_max xs x l (Or.inl h1)) h
    · exact le_of_le_of_eq (le_foldl_max xs x l (Or.inr h1)) h

/-- npMax succeeds on a label array with a nonempty flattening. -/
lemma npMax_ok_of_ne (y : List (List Int)) (h : y.flatten ≠ []) :
    ∃ mx, npMax y = .ok mx := by
  unfold npMax
  cases hf : y.flatten with
  | nil => exact absurd hf h
  | cons x xs => exact ⟨xs.foldl max x, rfl⟩

/-- npMax is below B when every label is. -/
lemma npMax_ok_lt (y : List (List Int)) (mx B : Int) (h : npMax y = .ok mx)
    (hB : ∀ r ∈ y, ∀ l ∈ r, l < B) : mx < B := by
  unfold npMax at h
  cases hf : y.flatten with
  | nil => rw [hf] at h; exact absurd h (by simp)
  | cons x xs =>
    rw [hf] at h
    simp only [Except.ok.injEq] at h
    have hflat : ∀ l ∈ y.flatten, l < B := by
      intro l hl
      obtain ⟨r, hr, hlr⟩ := List.mem_flatten.mp hl
      exact hB r hr l hlr
    rw [hf] at hflat
    rw [← h]
    exact foldl_max_lt xs x B (hflat x (List.mem_cons_self _ _))
      (fun z hz => hflat z (List.mem_cons_of_mem _ hz))

/-- The sampling loop succeeds on (m, 1)-shaped labels whose entries are
in-range row indices of a matrix with at least one column. -/
lemma sampleLoop_ok (m : NpMat) (hcols : 0 < m.cols) :
    ∀ (ys : List (List Int)) (g : Nat),
      (∀ r ∈ ys, r ≠ [] ∧ ∀ l ∈ r, 0 ≤ l ∧ l < (m.rows : Int)) →
      ∃ out ev, sampleLoop m g ys = (.ok out, ev) := by
  intro ys
  induction ys with
  | nil =>
    intro g _
    exact ⟨[], [], rfl⟩
  | cons r rest ih =>
    intro g hy
    obtain ⟨hne, hl⟩ := hy r (List.mem_cons_self _ _)
    obtain ⟨l0, rtl, hr⟩ : ∃ l0 rtl, r = l0 :: rtl := by
      cases r with
      | nil => exact absurd rfl hne
      | cons a b => exact ⟨a, b, rfl⟩
    subst hr
    have hall : ((l0 :: rtl).all
        (fun i => decide (-(m.rows : Int) ≤ i ∧ i < (m.rows : Int)))) = true := by
      rw [List.all_eq_true]
      intro i hi
      have hb := hl i hi
      simp only [decide_eq_true_eq]
      omega
    have hl0 := hl l0 (List.mem_cons_self _ _)
    have hrow : npGetRow m l0 = .ok (rowList m l0.toNat) := by
      unfold npGetRow
      rw [if_pos ⟨hl0.1, hl0.2⟩]
    have hfan : fancyRowsHead m (l0 :: rtl) = .ok (rowList m l0.toNat) := by
      unfold fancyRowsHead
      rw [hall]
      simpa using hrow
    have hlen : (rowList m l0.toNat).length = m.cols := by
      simp [rowList]
    have hnil : rowList m l0.toNat ≠ [] := by
      intro hcon
      rw [hcon] at hlen
      simp at hlen
      omega
    set u := (randUnit g).1 with hu
    have hidx : catIndex u (rowList m l0.toNat) < m.cols := by
      have := catIndex_lt (rowList m l0.toNat) u hnil
      rw [hlen] at this
      exact this
    obtain ⟨out, ev, hrec⟩ := ih (lcgNext g) (fun rr hrr => hy rr (List.mem_cons_of_mem _ hrr))
    refine ⟨((l0 :: rtl).map (fun _ => Int.ofNat (catIndex u (rowList m l0.toNat)))) :: out,
      .draw :: ev, ?_⟩
    show sampleLoop m g ((l0 :: rtl) :: rest) = _
    rw [sampleLoop, hfan]
    show (match broadcastAssign (l0 :: rtl)
        ((whereEq1 (multinomialOneHot g (rowList m l0.toNat)).1).map Int.ofNat) with
      | .error e => (Except.error e, [Event.draw])
      | .ok newRow =>
        match sampleLoop m (multinomialOneHot g (rowList m l0.toNat)).2 rest with
        | (.ok out2, ev2) => (Except.ok (newRow :: out2), Event.draw :: ev2)
        | (.error e, ev2) => (Except.error e, Event.draw :: ev2)) = _
    have hmo1 : (multinomialOneHot g (rowList m l0.toNat)).1 =
        oneHot (rowList m l0.toNat).length (catIndex u (rowList m l0.toNat)) := rfl
    rw [hlen] at hmo1
    have hmo2 : (multinomialOneHot g (rowList m l0.toNat)).2 = lcgNext g := rfl
    rw [hmo1, hmo2, whereEq1_oneHot _ _ hidx]
    show (match broadcastAssign (l0 :: rtl) [Int.ofNat (catIndex u (rowList m l0.toNat))] with
      | .error e => (Except.error e, [Event.draw])
      | .ok newRow =>
        match sampleLoop m (lcgNext g) rest with
        | (.ok out2, ev2) => (Except.ok (newRow :: out2), Event.draw :: ev2)
        | (.error e, ev2) => (Except.error e, Event.draw :: ev2)) = _
    rw [broadcastAssign, hrec]

/-- The sampler either fails its validation with AssertionError and an
empty draw trace, or validates and samples successfully, on nonempty
(m, 1)-shaped nonnegative labels. -/
lemma multiclass_noisify_cases (matrix : NpMat) (y : List (List Int)) (s : Nat)
    (hne : y ≠ []) (hlen : ∀ r ∈ y, r.length = 1) (hnn : ∀ r ∈ y, ∀ l ∈ r, 0 ≤ l) :
    (validationOk matrix y = true →
      ∃ out ev, multiclass_noisify y matrix s = (.ok out, .samplerCall :: ev)) ∧
    (validationOk matrix y = false →
      multiclass_noisify y matrix s = (.error .assertionError, [.samplerCall])) := by
  obtain ⟨r0, yt, hy0⟩ : ∃ r0 yt, y = r0 :: yt := by
    cases y with
    | nil => exact absurd rfl hne
    | cons a b => exact ⟨a, b, rfl⟩
  obtain ⟨l0, hr0⟩ : ∃ l0, r0 = [l0] :=
    List.length_eq_one.mp (hlen r0 (by rw [hy0]; exact List.mem_cons_self _ _))
  have hflat : y.flatten ≠ [] := by
    rw [hy0, hr0]
    simp
  obtain ⟨mx, hmax⟩ := npMax_ok_of_ne y hflat
  have hl0mem : l0 ∈ r0 := by rw [hr0]; exact List.mem_cons_self _ _
  have hl0y : r0 ∈ y := by rw [hy0]; exact List.mem_cons_self _ _
  have hl0nn : 0 ≤ l0 := hnn r0 hl0y l0 hl0mem
  have hl0mx : l0 ≤ mx := npMax_ok_le y mx hmax r0 hl0y l0 hl0mem
  have hvo : validationOk matrix y =
      ((matrix.rows == matrix.cols) && decide (mx < (matrix.rows : Int)) &&
        rowsAlmostOnes matrix && entriesNonneg matrix) := by
    unfold validationOk
    rw [hmax]
  constructor
  · intro hv
    rw [hvo] at hv
    simp only [Bool.and_eq_true, beq_iff_eq, decide_eq_true_eq] at hv
    obtain ⟨⟨⟨h1, h2⟩, h3⟩, h4⟩ := hv
    have hrowpos : 0 < matrix.rows := by
      have : (0 : Int) ≤ mx := le_trans hl0nn hl0mx
      omega
    have hcolpos : 0 < matrix.cols := by omega
    have hbound : ∀ r ∈ y, r ≠ [] ∧ ∀ l ∈ r, 0 ≤ l ∧ l < (matrix.rows : Int) := by
      intro r hr
      constructor
      · intro hcon
        have := hlen r hr
        rw [hcon] at this
        simp at this
      · intro l hlr
        refine ⟨hnn r hr l hlr, ?_⟩
        exact lt_of_le_of_lt (npMax_ok_le y mx hmax r hr l hlr) h2
    obtain ⟨out, ev, hloop⟩ := sampleLoop_ok matrix hcolpos y (mkRandomState s) hbound
    refine ⟨out, ev, ?_⟩
    unfold multiclass_noisify
    rw [if_pos h1]
    simp [hmax, h2, h3, h4, hloop]
  · intro hv
    rw [hvo] at hv
    unfold multiclass_noisify
    by_cases h1 : matrix.rows = matrix.cols
    · rw [if_pos h1]
      by_cases h2 : mx < (matrix.rows : Int)
      · by_cases h3 : rowsAlmostOnes matrix = true
        · by_cases h4 : entriesNonneg matrix = true
          · exfalso
            simp [h1, h2, h3, h4] at hv
            rw [h1] at h2
            omega
          · rw [Bool.not_eq_true] at h4
            simp [hmax, h2, h3, h4]
        · rw [Bool.not_eq_true] at h3
          simp [hmax, h2, h3]
      · simp [hmax, h2]
    · rw [if_neg h1]

/-- A matrix passes the row-stochastic check when each row sums within tol
of 1 and no entry is negative. -/
lemma rowStochasticWithin_true (M : NpMat) (tol : ℚ)
    (h1 : ∀ i, i < M.rows → |rowSum M i - 1| ≤ tol)
    (h2 : ∀ i j, i < M.rows → j < M.cols → 0 ≤ M.entry i j) :
    rowStochasticWithin M tol = true := by
  unfold rowStochasticWithin entriesNonneg
  rw [Bool.and_eq_true]
  constructor
  · rw [List.all_eq_true]
    intro i hi
    rw [List.mem_range] at hi
    exact decide_eq_true (h1 i hi)
  · rw [List.all_eq_true]
    intro i hi
    rw [List.mem_range] at hi
    rw [List.all_eq_true]
    intro j hj
    rw [List.mem_range] at hj
    exact decide_eq_true (h2 i j hi hj)

/-- Claim C1: for every class count C at least 2 and noise level n in
(0, 1], the pairflip builder constructs a C x C matrix holding 1-n on the
diagonal, n at the cyclic successor column (i+1) mod C of each row i, and
0 everywhere else. -/
theorem pairflip_builder_matrix_ok (C : Nat) (n : ℚ) (hC : 2 ≤ C) (h0 : 0 < n) (h1 : n ≤ 1) :
    builtOk (pairflip_matrix n C) = true ∧
    builtRows (pairflip_matrix n C) = C ∧
    builtCols (pairflip_matrix n C) = C ∧
    ∀ i j, i < C → j < C →
      builtEntry (pairflip_matrix n C) i j =
        (if j = i then 1 - n else if j = (i + 1) % C then n else 0) := by
  obtain ⟨M, hM, hr, hc, he⟩ := pairflip_matrix_spec n C hC h0
  rw [hM]
  exact ⟨rfl, hr, hc, fun i j hi hj => he i j hi hj⟩

unseal Rat.mul Rat.add Rat.sub Rat.inv Rat.ofScientific in
/-- Claim C1 witness: the concrete spec example C = 3, n = 1/2. -/
theorem pairflip_builder_matrix_ok_witness :
    builtLists (pairflip_matrix (1/2) 3) =
      .ok [[1/2, 1/2, 0], [0, 1/2, 1/2], [1/2, 0, 1/2]] ∧
    (builtOk (pairflip_matrix (1/2) 3) = true ∧
     builtRows (pairflip_matrix (1/2) 3) = 3 ∧
     builtCols (pairflip_matrix (1/2) 3) = 3 ∧
     ∀ i j, i < 3 → j < 3 →
       builtEntry (pairflip_matrix (1/2) 3) i j =
         (if j = i then 1 - 1/2 else if j = (i + 1) % 3 then 1/2 else 0)) :=
  ⟨by decide, pairflip_builder_matrix_ok 3 (1/2) (by decide) (by decide) (by decide)⟩

/-- Claim C2: for every class count C at least 2 and noise level n in
(0, 1], the symmetric builder constructs a C x C matrix holding 1-n on the
diagonal and n/(C-1) off the diagonal. -/
theorem symmetric_builder_matrix_ok (C : Nat) (n : ℚ) (hC : 2 ≤ C) (h0 : 0 < n) (h1 : n ≤ 1) :
    builtOk (symmetric_matrix n C) = true ∧
    builtRows (symmetric_matrix n C) = C ∧
    builtCols (symmetric_matrix n C) = C ∧
    ∀ i j, i < C → j < C →
      builtEntry (symmetric_matrix n C) i j =
        (if j = i then 1 - n else n / ((C : ℚ) - 1)) := by
  obtain ⟨M, hM, hr, hc, he⟩ := symmetric_matrix_spec n C hC h0
  rw [hM]
  exact ⟨rfl, hr, hc, fun i j hi hj => he i j hi hj⟩

unseal Rat.mul Rat.add Rat.sub Rat.inv Rat.ofScientific in
/-- Claim C2 witness: the concrete spec example C = 4, n = 3/10, with
diagonal 7/10 and off-diagonal 1/10. -/
theorem symmetric_builder_matrix_ok_witness :
    builtLists (symmetric_matrix (3/10) 4) =
      .ok [[7/10, 1/10, 1/10, 1/10], [1/10, 7/10, 1/10, 1/10],
           [1/10, 1/10, 7/10, 1/10], [1/10, 1/10, 1/10, 7/10]] ∧
    (builtOk (symmetric_matrix (3/10) 4) = true ∧
     builtRows (symmetric_matrix (3/10) 4) = 4 ∧
     builtCols (symmetric_matrix (3/10) 4) = 4 ∧
     ∀ i j, i < 4 → j < 4 →
       builtEntry (symmetric_matrix (3/10) 4) i j =
         (if j = i then 1 - 3/10 else (3/10) / ((4 : ℚ) - 1))) :=
  ⟨by decide, symmetric_builder_matrix_ok 4 (3/10) (by decide) (by decide) (by decide)⟩

unseal Rat.mul Rat.add Rat.sub Rat.inv Rat.ofScientific in
/-- Claim C3 counterexample: at noise level 0 the symmetric builder still
builds its matrix as (0/(C-1)) times the all-ones matrix, i.e. the zero
matrix, whose rows sum to 0 rather than 1; so the claim fails at
(symmetric, C = 2, n = 0). -/
theorem symmetric_zero_noise_matrix_not_row_stochastic :
    builtLists (symmetric_matrix 0 2) = .ok [[0, 0], [0, 0]] ∧
    builtRowStochastic (symmetric_matrix 0 2) (1/1000000) = false := by
  exact ⟨by decide, by decide⟩

/-- Claim C3 (amended): every row of the pairflip matrix sums to 1 within
1e-6 with no negative entries for all n in [0, 1]; the same holds for the
symmetric matrix for n in (0, 1] -- but not at n = 0, where the built
symmetric matrix is all zeros (it is never passed to the sampler, since
sampling is skipped when n = 0). -/
theorem builders_row_stochastic (C : Nat) (n : ℚ) (hC : 2 ≤ C) (h0 : 0 ≤ n) (h1 : n ≤ 1) :
    builtRowStochastic (pairflip_matrix n C) (1/1000000) = true ∧
    (0 < n → builtRowStochastic (symmetric_matrix n C) (1/1000000) = true) := by
  constructor
  · rcases eq_or_lt_of_le h0 with heq | hpos
    · rw [pairflip_matrix_zero n C (by rw [← heq]; exact lt_irrefl 0)]
      show rowStochasticWithin (eyeM C) (1/1000000) = true
      apply rowStochasticWithin_true
      · intro i hi
        rw [eye_rowSum C i hi]
        norm_num
      · intro i j _ _
        show (0 : ℚ) ≤ if i = j then 1 else 0
        split <;> norm_num
    · obtain ⟨M, hM, hr, hc, he⟩ := pairflip_matrix_spec n C hC hpos
      rw [hM]
      show rowStochasticWithin M (1/1000000) = true
      apply rowStochasticWithin_true
      · intro i hi
        rw [hr] at hi
        rw [pairflip_rowSum n C hC M hc he i hi]
        norm_num
      · intro i j hi hj
        rw [hr] at hi
        rw [hc] at hj
        rw [he i j hi hj]
        split
        · linarith
        · split
          · linarith
          · norm_num
  · intro hpos
    obtain ⟨M, hM, hr, hc, he⟩ := symmetric_matrix_spec n C hC hpos
    rw [hM]
    show rowStochasticWithin M (1/1000000) = true
    apply rowStochasticWithin_true
    · intro i hi
      rw [hr] at hi
      rw [symmetric_rowSum n C hC M hc he i hi]
      norm_num
    · intro i j hi hj
      rw [hr] at hi
      rw [hc] at hj
      rw [he i j hi hj]
      have hCq : (2 : ℚ) ≤ (C : ℚ) := by exact_mod_cast hC
      split
      · linarith
      · apply div_nonneg (le_of_lt hpos)
        linarith

unseal Rat.mul Rat.add Rat.sub Rat.inv Rat.ofScientific in
/-- Claim C3 witness: both builders at C = 2, n = 1/2. -/
theorem builders_row_stochastic_witness :
    builtRowStochastic (pairflip_matrix (1/2) 2) (1/1000000) = true ∧
    (0 < (1/2 : ℚ) → builtRowStochastic (symmetric_matrix (1/2) 2) (1/1000000) = true) :=
  builders_row_stochastic 2 (1/2) (by decide) (by decide) (by decide)

/-- Claim C4: with noise level 0 and a valid class count, both topologies
return the input labels with no realized rate, and the trace shows the
sampler is never entered (only the matrix-construction marker appears). -/
theorem zero_noise_returns_labels_unchanged (C : Nat) (y : List (List Int)) (t : String)
    (s : Nat) (hC : 2 ≤ C) (ht : t = "pairflip" ∨ t = "symmetric") :
    noisify C y t 0 s = (.ok (y, none), [.matrixBuild]) := by
  rcases ht with ht | ht <;> subst ht
  · unfold noisify
    rw [if_pos rfl]
    unfold noisify_pairflip
    rw [pairflip_matrix_zero 0 C (lt_irrefl 0)]
    simp
  · unfold noisify
    rw [if_neg (by decide : ¬ ("symmetric" : String) = "pairflip"), if_pos rfl]
    unfold noisify_multiclass_symmetric
    rw [symmetric_matrix_zero 0 C (by omega) (lt_irrefl 0)]
    simp

/-- Claim C4 witness: the pairflip topology at C = 2 on one label. -/
theorem zero_noise_returns_labels_unchanged_witness :
    noisify 2 [[0]] pairflipTag 0 0 = (.ok ([[0]], none), [.matrixBuild]) :=
  zero_noise_returns_labels_unchanged 2 [[0]] pairflipTag 0 (by decide) (Or.inl rfl)

/-- Claim C5: the sampler output is a function of (labels, matrix, seed)
alone -- the local generator is built from the seed inside each call, the
ambient process-wide generator state is neither read nor advanced, and a
repeated call with identical inputs returns the identical result. -/
theorem sampler_deterministic (w1 w2 : Nat) (y : List (List Int)) (matrix : NpMat) (s : Nat) :
    (multiclass_noisify_amb w1 y matrix s).1 = (multiclass_noisify_amb w2 y matrix s).1 ∧
    (multiclass_noisify_amb w1 y matrix s).2 = w1 ∧
    (multiclass_noisify_amb ((multiclass_noisify_amb w1 y matrix s).2) y matrix s).1 =
      (multiclass_noisify_amb w1 y matrix s).1 :=
  ⟨rfl, rfl, rfl⟩

/-- Claim C7: any topology tag outside pairflip and symmetric makes the
orchestrator fail with the ValueError of the unsupported noise type, with
an empty trace: no matrix construction and no sampling happen, and no
label output is produced. -/
theorem unsupported_topology_rejected (C : Nat) (y : List (List Int)) (n : ℚ) (s : Nat)
    (t : String) (h1 : ¬ t = "pairflip") (h2 : ¬ t = "symmetric") :
    noisify C y t n s = (.error .valueError, []) := by
  unfold noisify
  rw [if_neg h1, if_neg h2]

/-- Claim C7 witness: the gaussian tag at C = 10. -/
theorem unsupported_topology_rejected_witness :
    noisify 10 [[0]] gaussianTag (1/2) 0 = (.error .valueError, []) :=
  unsupported_topology_rejected 10 [[0]] (1/2) 0 gaussianTag (by decide) (by decide)

/-- Claim C6: on nonempty (m, 1)-shaped label arrays with nonnegative
entries, the sampler fails with the assertion-backed validation error
exactly when one of its four validated preconditions (square matrix,
max label below the row count, row sums within tolerance of 1, no
negative entry) is violated; the failure happens before any draw (the
trace holds only the sampler-entry marker) and produces no output, and
when all four preconditions hold the sampler returns an output. -/
theorem sampler_validation_exact (matrix : NpMat) (y : List (List Int)) (s : Nat)
    (hne : y ≠ []) (hlen : ∀ r ∈ y, r.length = 1) (hnn : ∀ r ∈ y, ∀ l ∈ r, 0 ≤ l) :
    ((multiclass_noisify y matrix s).1 = .error .assertionError ↔
      validationOk matrix y = false) ∧
    (validationOk matrix y = false → (multiclass_noisify y matrix s).2 = [.samplerCall]) ∧
    (validationOk matrix y = true →
      ∃ out ev, multiclass_noisify y matrix s = (.ok out, .samplerCall :: ev)) := by
  obtain ⟨hok, herr⟩ := multiclass_noisify_cases matrix y s hne hlen hnn
  refine ⟨⟨?_, ?_⟩, ?_, hok⟩
  · intro h
    cases hv : validationOk matrix y with
    | false => rfl
    | true =>
      obtain ⟨out, ev, hcall⟩ := hok hv
      rw [hcall] at h
      exact absurd h (by simp)
  · intro hv
    rw [herr hv]
  · intro hv
    rw [herr hv]

/-- Claim C6 witness: the identity matrix at C = 2 with labels 0 and 1. -/
theorem sampler_validation_exact_witness :
    ((multiclass_noisify [[0], [1]] (eyeM 2) 0).1 = .error .assertionError ↔
      validationOk (eyeM 2) [[0], [1]] = false) ∧
    (validationOk (eyeM 2) [[0], [1]] = false →
      (multiclass_noisify [[0], [1]] (eyeM 2) 0).2 = [.samplerCall]) ∧
    (validationOk (eyeM 2) [[0], [1]] = true →
      ∃ out ev, multiclass_noisify [[0], [1]] (eyeM 2) 0 = (.ok out, .samplerCall :: ev)) :=
  sampler_validation_exact (eyeM 2) [[0], [1]] 0 (by decide) (by decide) (by decide)

/-- The pairflip matrix build at class count 1 with positive noise fails
writing matrix[0, 1]. -/
lemma pairflip_matrix_one (n : ℚ) (hn : 0 < n) :
    pairflip_matrix n 1 = .error .indexError := by
  unfold pairflip_matrix
  rw [if_pos hn]
  have h1 := setE_ok (eyeM 1) 0 0 (1 - n) (by show 0 < 1; omega) (by show 0 < 1; omega)
  have h2 : setE ⟨(eyeM 1).rows, (eyeM 1).cols,
      fun a b => if a = 0 ∧ b = 0 then 1 - n else (eyeM 1).entry a b⟩ 0 1 n =
      .error .indexError :=
    setE_err _ 0 1 n (by show ¬ (0 < 1 ∧ 1 < 1); omega)
  simp only [h1, h2]

unseal Rat.mul Rat.add Rat.sub Rat.inv Rat.ofScientific in
/-- Claim C8 counterexample: with the valid class count 10, the noise
level -1/2 lies outside [0, 1] yet noisify does not fail at all: the
builder treats it like zero noise and returns the labels unchanged with
rate None. -/
theorem negative_noise_not_rejected :
    noisify 10 [[0], [1]] pairflipTag (-(1/2)) 0 =
      (.ok ([[0], [1]], none), [.matrixBuild]) := by
  decide

/-- Claim C8 (amended): the code has no explicit configuration check.
What actually happens is: at class count 1, the symmetric builder always
fails with the division-by-zero of n/(C-1), while the pairflip builder
fails with an index error only when n is positive and returns the labels
unchanged when n is not positive (as it does for every class count);
noise below 0 never fails -- labels come back unchanged with rate None;
noise above 1 on valid labels fails later, in the non-negativity
validation of the sampler (shown for pairflip). -/
theorem config_error_behaviour (y : List (List Int)) (n : ℚ) (s : Nat) (C : Nat) :
    (noisify 1 y symmetricTag n s = (.error .zeroDivisionError, [.matrixBuild])) ∧
    (0 < n → noisify 1 y pairflipTag n s = (.error .indexError, [.matrixBuild])) ∧
    (n ≤ 0 → noisify C y pairflipTag n s = (.ok (y, none), [.matrixBuild])) ∧
    (n ≤ 0 → ¬ C = 1 → noisify C y symmetricTag n s = (.ok (y, none), [.matrixBuild])) ∧
    (1 < n → 2 ≤ C → y ≠ [] → (∀ r ∈ y, r.length = 1) →
      (∀ r ∈ y, ∀ l ∈ r, 0 ≤ l ∧ l < (C : Int)) →
      (noisify C y pairflipTag n s).1 = .error .assertionError) := by
  refine ⟨?_, ?_, ?_, ?_, ?_⟩
  · simp only [symmetricTag]
    unfold noisify
    rw [if_neg (by decide : ¬ ("symmetric" : String) = "pairflip"), if_pos rfl]
    unfold noisify_multiclass_symmetric
    have hz : symmetric_matrix n 1 = .error .zeroDivisionError := by
      unfold symmetric_matrix
      rw [if_pos rfl]
    rw [hz]
  · intro hn
    simp only [pairflipTag]
    unfold noisify
    rw [if_pos rfl]
    unfold noisify_pairflip
    rw [pairflip_matrix_one n hn]
  · intro hn
    simp only [pairflipTag]
    unfold noisify
    rw [if_pos rfl]
    unfold noisify_pairflip
    rw [pairflip_matrix_zero n C (not_lt.mpr hn)]
    simp [not_lt.mpr hn]
  · intro hn hC
    simp only [symmetricTag]
    unfold noisify
    rw [if_neg (by decide : ¬ ("symmetric" : String) = "pairflip"), if_pos rfl]
    unfold noisify_multiclass_symmetric
    rw [symmetric_matrix_zero n C hC (not_lt.mpr hn)]
    simp [not_lt.mpr hn]
  · intro hn hC hne hlen hb
    have hpos : 0 < n := by linarith
    obtain ⟨M, hM, hr, hc, he⟩ := pairflip_matrix_spec n C hC hpos
    have hnonneg : entriesNonneg M = false := by
      rw [← Bool.not_eq_true]
      intro hcon
      unfold entriesNonneg at hcon
      rw [List.all_eq_true] at hcon
      have h0r : 0 ∈ List.range M.rows := List.mem_range.mpr (by omega)
      have := hcon 0 h0r
      rw [List.all_eq_true] at this
      have h0c : 0 ∈ List.range M.cols := List.mem_range.mpr (by omega)
      have h00 := this 0 h0c
      rw [decide_eq_true_eq] at h00
      rw [he 0 0 (by omega) (by omega)] at h00
      simp at h00
      linarith
    have hvfalse : validationOk M y = false := by
      unfold validationOk
      rw [hnonneg]
      simp
    have herr := (multiclass_noisify_cases M y s hne hlen
      (fun r hr l hl => (hb r hr l hl).1)).2 hvfalse
    simp only [pairflipTag]
    unfold noisify
    rw [if_pos rfl]
    unfold noisify_pairflip
    simp only [hM]
    rw [if_pos hpos]
    simp only [herr]

unseal Rat.mul Rat.add Rat.sub Rat.inv Rat.ofScientific in
/-- Claim C8 witness: the symmetric builder at class count 1. -/
theorem config_error_behaviour_witness :
    noisify 1 [[0]] symmetricTag (1/2) 0 = (.error .zeroDivisionError, [.matrixBuild]) :=
  (config_error_behaviour [[0]] (1/2) 0 5).1

unseal Rat.mul Rat.add Rat.sub Rat.inv Rat.ofScientific in
/-- Claim C9 counterexample: a nonempty label set with positive noise for
which not a single label flips. With one label, symmetric topology,
C = 2 and n = 1/2, the first draw keeps class 0, the realized rate is 0,
and the hard assertion aborts the call instead of any positive rate being
produced. -/
theorem positive_noise_zero_flips_aborts :
    noisify 2 [[0]] symmetricTag (1/2) 0 =
      (.error .assertionError, [.matrixBuild, .samplerCall, .draw]) := by
  decide

/-- Claim C9 (amended): the orchestrator computes the realized rate after
sampling and enforces the hard assertion that it is strictly positive:
whenever a call with positive noise level returns at all, the returned
rate is some r with r strictly positive; when sampling flips nothing the
call aborts with the assertion error instead (see the counterexample),
so positivity is a property of successful returns, not of every input. -/
theorem realized_rate_positive_on_success (C : Nat) (y out : List (List Int))
    (rate : Option ℚ) (n : ℚ) (s : Nat) (t : String) (hn : 0 < n)
    (hok : (noisify C y t n s).1 = .ok (out, rate)) :
    ∃ r, rate = some r ∧ 0 < r := by
  unfold noisify at hok
  by_cases h1 : t = "pairflip"
  · rw [if_pos h1] at hok
    unfold noisify_pairflip at hok
    cases hpm : pairflip_matrix n C with
    | error e =>
      rw [hpm] at hok
      simp at hok
    | ok M =>
      rw [hpm] at hok
      simp only at hok
      rw [if_pos hn] at hok
      rcases hmn : multiclass_noisify y M s with ⟨res, ev⟩
      rw [hmn] at hok
      cases res with
      | error e => simp at hok
      | ok y2 =>
        simp only at hok
        by_cases hnr : noiseRate y2 y > 0
        · rw [if_pos hnr] at hok
          simp only [Except.ok.injEq, Prod.mk.injEq] at hok
          exact ⟨noiseRate y2 y, hok.2.symm, hnr⟩
        · rw [if_neg hnr] at hok
          simp at hok
  · rw [if_neg h1] at hok
    by_cases h2 : t = "symmetric"
    · rw [if_pos h2] at hok
      unfold noisify_multiclass_symmetric at hok
      cases hpm : symmetric_matrix n C with
      | error e =>
        rw [hpm] at hok
        simp at hok
      | ok M =>
        rw [hpm] at hok
        simp only at hok
        rw [if_pos hn] at hok
        rcases hmn : multiclass_noisify y M s with ⟨res, ev⟩
        rw [hmn] at hok
        cases res with
        | error e => simp at hok
        | ok y2 =>
          simp only at hok
          by_cases hnr : noiseRate y2 y > 0
          · rw [if_pos hnr] at hok
            simp only [Except.ok.injEq, Prod.mk.injEq] at hok
            exact ⟨noiseRate y2 y, hok.2.symm, hnr⟩
          · rw [if_neg hnr] at hok
            simp at hok
    · rw [if_neg h2] at hok
      simp at hok

unseal Rat.mul Rat.add Rat.sub Rat.inv Rat.ofScientific in
/-- Claim C9 witness: the spec example with five labels, C = 2, n = 1,
symmetric topology and seed 0: every draw flips, the call succeeds, and
the returned rate 1 is strictly positive. -/
theorem realized_rate_positive_on_success_witness :
    ∃ r, (some (1 : ℚ)) = some r ∧ 0 < r :=
  realized_rate_positive_on_success 2 [[0], [0], [0], [0], [0]]
    [[1], [1], [1], [1], [1]] (some 1) 1 0 symmetricTag (by decide) (by decide)

/-- Claim C10: on every flat 1-D label vector with data-model labels that
passes all four validated preconditions, the per-position draw is
ill-formed: matrix[i, :][0] selects the first scalar of row i rather than
the row, multinomial raises TypeError on it, and no noisy vector is
produced (the trace shows no completed draw). -/
theorem flat_labels_sampler_fails (matrix : NpMat) (y : List Int) (s : Nat)
    (hnn : ∀ l ∈ y, 0 ≤ l) (hv : validationOkFlat matrix y = true) :
    multiclass_noisify_flat y matrix s = (.error .typeError, [.samplerCall]) := by
  unfold validationOkFlat at hv
  cases hmax : npMaxFlat y with
  | error e =>
    rw [hmax] at hv
    simp at hv
  | ok mx =>
    rw [hmax] at hv
    simp only [Bool.and_eq_true, beq_iff_eq, decide_eq_true_eq] at hv
    obtain ⟨⟨⟨h1, h2⟩, h3⟩, h4⟩ := hv
    obtain ⟨l0, yt, hy⟩ : ∃ l0 yt, y = l0 :: yt := by
      cases y with
      | nil =>
        exfalso
        unfold npMaxFlat at hmax
        exact absurd hmax (by simp)
      | cons a b => exact ⟨a, b, rfl⟩
    subst hy
    have hl0 : 0 ≤ l0 := hnn l0 (List.mem_cons_self _ _)
    have hl0mx : l0 ≤ mx := by
      unfold npMaxFlat at hmax
      simp only [Except.ok.injEq] at hmax
      exact le_of_le_of_eq (le_foldl_max yt l0 l0 (Or.inl rfl)) hmax
    have hl0row : l0 < (matrix.rows : Int) := lt_of_le_of_lt hl0mx h2
    have hget : npGetRow matrix l0 = .ok (rowList matrix l0.toNat) := by
      unfold npGetRow
      rw [if_pos ⟨hl0, hl0row⟩]
    obtain ⟨p, ps, hrow⟩ : ∃ p ps, rowList matrix l0.toNat = p :: ps := by
      have hlen2 : (rowList matrix l0.toNat).length = matrix.cols := by simp [rowList]
      have hcpos : 0 < matrix.cols := by
        rw [← h1]
        omega
      cases hh : rowList matrix l0.toNat with
      | nil =>
        rw [hh] at hlen2
        simp at hlen2
        omega
      | cons a b => exact ⟨a, b, rfl⟩
    have hloop : sampleLoopFlat matrix (mkRandomState s) (l0 :: yt) =
        (.error .typeError, []) := by
      unfold sampleLoopFlat
      simp only [hget, hrow]
    unfold multiclass_noisify_flat
    rw [if_pos h1]
    simp [hmax, h2, h3, h4, hloop]

unseal Rat.mul Rat.add Rat.sub Rat.inv Rat.ofScientific in
/-- Claim C10 witness: flat labels 0 and 1 against the 2 x 2 identity. -/
theorem flat_labels_sampler_fails_witness :
    multiclass_noisify_flat [0, 1] (eyeM 2) 0 = (.error .typeError, [.samplerCall]) :=
  flat_labels_sampler_fails (eyeM 2) [0, 1] 0 (by decide) (by decide)

end CoTeaching
